import Mathlib

/-!
Shallow embedding of the glitch-effect engine in
`client/src/lib/glitchProcessor.ts`.

Conventions used throughout:
* JS `number` arithmetic is idealized as exact arithmetic: `ℚ` where only
  field operations occur, `ℝ` where `Math.sin` / `Math.cos` / `Math.PI`
  appear.
* A `Uint8ClampedArray` is modelled flat, as a total function `ℤ → ℕ`:
  index `(y*width + x)*4 + channel` holds that channel's byte.  Indices
  outside the array carry arbitrary values (a JS out-of-range read yields
  `undefined`; no theorem below depends on the value read out of range).
* JS `%` on integers is truncated remainder (`Int.tmod`, sign of the
  dividend); JS `%` on floats is `a - b * truncate (a / b)`.
* JS `Math.round x` is `⌊x + 1/2⌋`, which is Mathlib's `round`.
* storing a value into a `Uint8ClampedArray` clamps it to `[0, 255]` and
  rounds ties to even (ECMAScript `ToUint8Clamp`).
-/

namespace Glitch

/-- Flat RGBA byte store, as in the source's `imageData.data`. -/
def ByteArr : Type := ℤ → ℕ

/-- The `effectType` discriminant of `EffectParams` in the source. -/
inductive EffectType
  | chromatic
  | fractal
  | cellular
  | wave
  | noise
deriving DecidableEq

/-- The `EffectParams` record of the source.  The source declares the four
scalar fields as `number`; the spec constrains them to integers, so they are
embedded as `ℕ`. -/
structure EffectParams where
  effectType : EffectType
  intensity : ℕ
  scale : ℕ
  iterations : ℕ
  seed : ℕ

/-- Flat index of the first byte of pixel `(x, y)`: `(y * width + x) * 4`. -/
def pixIdx (W : ℕ) (x y : ℤ) : ℤ := (y * W + x) * 4

/-- JS `%` on integers: truncated remainder, sign of the dividend. -/
def jsRem (a b : ℤ) : ℤ := Int.tmod a b

/-- Store of an integer into a `Uint8ClampedArray` cell: clamp to [0,255]
(`ToUint8Clamp` on an integer input performs no rounding). -/
def clampByte (v : ℤ) : ℕ := (min 255 (max 0 v)).toNat

open Classical in
/-- Rounding half to even, the tie-breaking rule of `ToUint8Clamp`. -/
noncomputable def roundTiesEven (v : ℝ) : ℤ :=
  if v - ⌊v⌋ < 1/2 then ⌊v⌋
  else if 1/2 < v - ⌊v⌋ then ⌊v⌋ + 1
  else if Even ⌊v⌋ then ⌊v⌋ else ⌊v⌋ + 1

open Classical in
/-- ECMAScript `ToUint8Clamp`: the conversion applied when a float is stored
into a `Uint8ClampedArray` cell. -/
noncomputable def toUint8Clamp (v : ℝ) : ℕ :=
  if v ≤ 0 then 0
  else if 255 ≤ v then 255
  else (roundTiesEven v).toNat

/-! ### Buffer Manager: the `GlitchProcessor` constructor -/

/-- Dimension computation of the constructor (lines 21-35): bound 800×600,
`aspectRatio = width / height`, and the branch is on `width > height`. -/
def resizeDims (w h : ℕ) : ℕ × ℕ :=
  if 800 < w ∨ 600 < h then
    if h < w then (800, (round ((800 : ℚ) * h / w)).toNat)
    else ((round ((600 : ℚ) * w / h)).toNat, 600)
  else (w, h)

/-- Failure modes observable from the constructor.  `invalidImage` is the
spec's error name; the source itself raises nothing — on a zero dimension
the failure comes from the canvas API. -/
inductive LoadError
  | indexSizeError
  | invalidImage
deriving DecidableEq

/-- The constructor as a load operation: compute the bounded dimensions,
draw, then `getImageData(0, 0, width, height)`.  Per the HTML canvas
specification `getImageData` throws `IndexSizeError` when either requested
dimension is zero; the constructor performs no validation of its own, and
no decoded-pixel-count check exists anywhere in the source. -/
def glitchLoad (w h : ℕ) : Except LoadError (ℕ × ℕ) :=
  let d := resizeDims w h
  if d.1 = 0 ∨ d.2 = 0 then Except.error LoadError.indexSizeError
  else Except.ok d

/-! ### Chromatic Displacement (`applyChromaticAberration`) -/

/-- `offsetAmount = Math.floor(params.intensity * 0.2)` (line 85). -/
def chromOffsetAmount (I : ℕ) : ℤ := ⌊(I : ℚ) * (2/10)⌋

/-- `offset = Math.floor((offsetAmount * (i + 1)) / iterations)` (line 89). -/
def chromOffset (I n i : ℕ) : ℤ :=
  ⌊((chromOffsetAmount I * (i + 1) : ℤ) : ℚ) / (n : ℚ)⌋

/-- The spec's formula for the same quantity, transcribed from its words:
offset magnitude = floor(intensity × 0.2 × (i+1) / n). -/
def chromOffsetSpec (I n i : ℕ) : ℤ :=
  ⌊(I : ℚ) * (2/10) * (i + 1) / (n : ℚ)⌋

/-- `angle = (i / iterations) * Math.PI * 2` (line 90). -/
noncomputable def chromAngle (i n : ℕ) : ℝ := ((i : ℝ) / (n : ℝ)) * Real.pi * 2

/-- `dx = Math.round(Math.cos(angle) * offset)` (line 91). -/
noncomputable def chromDx (I n i : ℕ) : ℤ :=
  round (Real.cos (chromAngle i n) * (chromOffset I n i : ℝ))

/-- `dy = Math.round(Math.sin(angle) * offset)` (line 92). -/
noncomputable def chromDy (I n i : ℕ) : ℤ :=
  round (Real.sin (chromAngle i n) * (chromOffset I n i : ℝ))

/-- `srcX = (x + dx + width) % width` (line 97; similarly line 98 for y). -/
def chromSrc (L : ℕ) (x dx : ℤ) : ℤ := jsRem (x + dx + L) L

/-- One pass `i` of the chromatic loop over all pixels: the byte at `j` is
rewritten exactly when `j` is the channel `i % 3` of an in-range pixel, to
`Math.round((newData[j] + data[srcIdx + channel]) / 2)`; for naturals
`a`, `b`, `Math.round((a + b) / 2) = (a + b + 1) / 2`, and the store clamps
at 255. -/
def chromPass (W H : ℕ) (data : ByteArr) (i : ℕ) (dx dy : ℤ) (cur : ByteArr) :
    ByteArr :=
  fun j =>
    if 0 ≤ j ∧ Int.emod j 4 = ((i % 3 : ℕ) : ℤ) ∧
        Int.ediv j 4 < (W : ℤ) * (H : ℤ) then
      let x := Int.emod (Int.ediv j 4) W
      let y := Int.ediv (Int.ediv j 4) W
      let srcIdx := pixIdx W (chromSrc W x dx) (chromSrc H y dy)
      min 255 ((cur j + data (srcIdx + Int.emod j 4) + 1) / 2)
    else cur j

/-- `applyChromaticAberration` (lines 76-121): `newData` starts as a copy of
`data`, then the iteration loop folds `chromPass` over `i = 0 .. n-1`. -/
noncomputable def applyChromaticAberration (W H : ℕ) (data : ByteArr)
    (p : EffectParams) : ByteArr :=
  (List.range p.iterations).foldl
    (fun cur i =>
      chromPass W H data i (chromDx p.intensity p.iterations i)
        (chromDy p.intensity p.iterations i) cur)
    data

/-! ### Fractal Displacement (`applyFractalDisplacement`) -/

/-- The escape-time loop (lines 146-159).  Arguments: remaining fuel, the
loop counter `i`, the current `zx`, `zy`, and the last `mandelbrotValue`
assigned (initially 0). -/
def mandelLoop (px py : ℚ) : ℕ → ℕ → ℚ → ℚ → ℕ → ℕ
  | 0, _, _, _, mv => mv
  | fuel + 1, i, zx, zy, _ =>
    if zx * zx + zy * zy > 4 then i
    else mandelLoop px py fuel (i + 1) (zx * zx - zy * zy + px)
      (2 * zx * zy + py) i

/-- `mandelbrotValue` for pixel `(x, y)`: `px = (x - width/2) * (scale*0.01)`,
`py = (y - height/2) * (scale*0.01)`, then the escape-time loop. -/
def fractalMandelValue (W H scale n : ℕ) (x y : ℤ) : ℕ :=
  mandelLoop (((x : ℚ) - (W : ℚ) / 2) * ((scale : ℚ) * (1/100)))
    (((y : ℚ) - (H : ℚ) / 2) * ((scale : ℚ) * (1/100))) n 0 0 0 0

/-- `displacement = Math.floor((mandelbrotValue / iterations) * intensity)`
(lines 161-163). -/
def fractalDisplacement (W H scale I n : ℕ) (x y : ℤ) : ℤ :=
  ⌊((fractalMandelValue W H scale n x y : ℚ) / (n : ℚ)) * (I : ℚ)⌋

/-- `srcX = (x + displacement) % width` (line 164; note: no `+ width` term
here, unlike the chromatic effect). -/
def fractalSrc (L : ℕ) (x d : ℤ) : ℤ := jsRem (x + d) L

/-- `applyFractalDisplacement` (lines 123-178): all four channels are copied
from the sampled source byte. -/
def applyFractalDisplacement (W H : ℕ) (data : ByteArr) (p : EffectParams) :
    ByteArr :=
  fun j =>
    if 0 ≤ j ∧ Int.ediv j 4 < (W : ℤ) * (H : ℤ) then
      let x := Int.emod (Int.ediv j 4) W
      let y := Int.ediv (Int.ediv j 4) W
      let d := fractalDisplacement W H p.scale p.intensity p.iterations x y
      data (pixIdx W (fractalSrc W x d) (fractalSrc H y d) + Int.emod j 4)
    else data j

/-! ### Cellular Evolution (`applyCellularAutomata`) -/

/-- Grid initialization (lines 189-194): cell `p` is 1 iff the normalized
luminance of pixel `p` exceeds 1/2. -/
def initGrid (data : ByteArr) : ℤ → ℕ :=
  fun p =>
    if ((data (4 * p) : ℚ) * (299/1000) + (data (4 * p + 1) : ℚ) * (587/1000)
        + (data (4 * p + 2) : ℚ) * (114/1000)) / 255 > 1/2
    then 1 else 0

/-- Sum of the eight neighbors of cell `(x, y)` read from grid `g`
(lines 206-211), at flat indices `(y + dy) * width + (x + dx)`. -/
def caNeighbors (W : ℕ) (g : ℤ → ℕ) (x y : ℤ) : ℕ :=
  g ((y - 1) * W + (x - 1)) + g ((y - 1) * W + x) + g ((y - 1) * W + (x + 1)) +
  g (y * W + (x - 1)) + g (y * W + (x + 1)) +
  g ((y + 1) * W + (x - 1)) + g ((y + 1) * W + x) + g ((y + 1) * W + (x + 1))

/-- One generation (lines 198-223): `newGrid` starts as a copy of `grid`,
interior cells (`1 ≤ x < W-1`, `1 ≤ y < H-1`) are rewritten by the life
rule reading only the old grid, then the old grid is replaced. -/
def caStep (W H : ℕ) (g : ℤ → ℕ) : ℤ → ℕ :=
  fun p =>
    let x := Int.emod p W
    let y := Int.ediv p W
    if 0 ≤ p ∧ 1 ≤ x ∧ x < (W : ℤ) - 1 ∧ 1 ≤ y ∧ y < (H : ℤ) - 1 then
      let nb := caNeighbors W g x y
      if g p = 1 then (if nb = 2 ∨ nb = 3 then 1 else 0)
      else (if nb = 3 then 1 else 0)
    else g p

/-- The grid after `n` generations. -/
def caGrid (W H : ℕ) (data : ByteArr) (n : ℕ) : ℤ → ℕ :=
  (caStep W H)^[n] (initGrid data)

/-- `applyCellularAutomata` (lines 180-239): the recolor loop rewrites the
three color bytes of every pixel to
`Math.round(data[j] * (1 - cellValue * intensity / 100))` and leaves alpha
alone (`newData` starts as a copy of `data`). -/
def applyCellularAutomata (W H : ℕ) (data : ByteArr) (p : EffectParams) :
    ByteArr :=
  fun j =>
    if 0 ≤ j ∧ Int.ediv j 4 < (W : ℤ) * (H : ℤ) ∧ Int.emod j 4 < 3 then
      clampByte (round ((data j : ℚ) *
        (1 - (caGrid W H data p.iterations (Int.ediv j 4) : ℚ) *
          (p.intensity : ℚ) / 100)))
    else data j

/-! ### Wave Distortion (`applyWaveDistortion`) -/

/-- Accumulated `displaceX` (lines 256-265): over `i = 0 .. n-1`,
`freq = (scale*0.1) * (i+1)`, `amp = (intensity*0.1) / (i+1)`, and
`displaceX += Math.sin((y * freq) / height) * amp`. -/
noncomputable def waveDX (W H scale I n : ℕ) (x y : ℤ) : ℝ :=
  Finset.sum (Finset.range n) fun i =>
    Real.sin ((y : ℝ) * ((scale : ℝ) * (1/10) * ((i : ℝ) + 1)) / (H : ℝ)) *
      ((I : ℝ) * (1/10) / ((i : ℝ) + 1))

/-- Accumulated `displaceY`: `displaceY += Math.cos((x * freq) / width) * amp`. -/
noncomputable def waveDY (W H scale I n : ℕ) (x y : ℤ) : ℝ :=
  Finset.sum (Finset.range n) fun i =>
    Real.cos ((x : ℝ) * ((scale : ℝ) * (1/10) * ((i : ℝ) + 1)) / (W : ℝ)) *
      ((I : ℝ) * (1/10) / ((i : ℝ) + 1))

open Classical in
/-- Truncation toward zero, as in the JS float remainder. -/
noncomputable def realTrunc (x : ℝ) : ℤ := if 0 ≤ x then ⌊x⌋ else ⌈x⌉

/-- JS `%` on floats: `a - b * truncate (a / b)` (sign of the dividend). -/
noncomputable def jsFmod (a b : ℝ) : ℝ := a - b * (realTrunc (a / b) : ℝ)

/-- `srcX = Math.floor((x + displaceX + width) % width)` (line 267): the
real-valued wrap happens first, then the floor. -/
noncomputable def waveSrc (L : ℕ) (x : ℤ) (d : ℝ) : ℤ :=
  ⌊jsFmod ((x : ℝ) + d + (L : ℝ)) (L : ℝ)⌋

/-- `applyWaveDistortion` (lines 241-281): all four channels are copied from
the sampled source byte. -/
noncomputable def applyWaveDistortion (W H : ℕ) (data : ByteArr)
    (p : EffectParams) : ByteArr :=
  fun j =>
    if 0 ≤ j ∧ Int.ediv j 4 < (W : ℤ) * (H : ℤ) then
      let x := Int.emod (Int.ediv j 4) W
      let y := Int.ediv (Int.ediv j 4) W
      data (pixIdx W (waveSrc W x (waveDX W H p.scale p.intensity p.iterations x y))
        (waveSrc H y (waveDY W H p.scale p.intensity p.iterations x y)) +
        Int.emod j 4)
    else data j

/-! ### Layered-Noise Displacement (`applyPerlinNoiseGlitch`) -/

/-- The octave accumulation (lines 298-315) in closed form: after `i` passes
of `amplitude *= 0.5; frequency *= 2` the amplitude is `(1/2)^i` and the
frequency is `2^i` (both exact, also in floats), so the accumulated
`noiseValue` is the sum over `i < n` of
`(1/2)^i * Math.sin(sampleX * π) * Math.cos(sampleY * π)` with
`sampleX = (x * 2^i * (scale*0.01)) / width` and
`sampleY = (y * 2^i * (scale*0.01)) / height`. -/
noncomputable def noiseRaw (W H scale n : ℕ) (x y : ℤ) : ℝ :=
  Finset.sum (Finset.range n) fun i =>
    (1/2 : ℝ)^i *
      Real.sin ((x : ℝ) * 2^i * ((scale : ℝ) * (1/100)) / (W : ℝ) * Real.pi) *
      Real.cos ((y : ℝ) * 2^i * ((scale : ℝ) * (1/100)) / (H : ℝ) * Real.pi)

/-- The accumulated `maxValue`: sum of the amplitudes `(1/2)^i`. -/
noncomputable def noiseMax (n : ℕ) : ℝ :=
  Finset.sum (Finset.range n) fun i => (1/2 : ℝ)^i

/-- `noiseValue = (noiseValue / maxValue + 1) / 2` (line 317). -/
noncomputable def noiseNormalized (W H scale n : ℕ) (x y : ℤ) : ℝ :=
  (noiseRaw W H scale n x y / noiseMax n + 1) / 2

/-- `displacement = Math.floor(noiseValue * intensity)` (line 318). -/
noncomputable def noiseDisplacement (W H scale I n : ℕ) (x y : ℤ) : ℤ :=
  ⌊noiseNormalized W H scale n x y * (I : ℝ)⌋

/-- `colorShift = Math.floor(noiseValue * 255)` (line 326). -/
noncomputable def noiseColorShift (W H scale n : ℕ) (x y : ℤ) : ℤ :=
  ⌊noiseNormalized W H scale n x y * 255⌋

open Classical in
/-- `applyPerlinNoiseGlitch` (lines 283-345): sample at the wrapped
displaced coordinate, then
`newData[dst]     = Math.min(255, data[srcIdx]     + colorShift * (intensity/100))`,
`newData[dst + 1] = Math.min(255, data[srcIdx + 1] + (colorShift * (intensity/100)) / 2)`,
`newData[dst + 2] = Math.min(255, data[srcIdx + 2] - (colorShift * (intensity/100)) / 2)`,
`newData[dst + 3] = data[srcIdx + 3]`; the three float stores pass through
`ToUint8Clamp`. -/
noncomputable def applyPerlinNoiseGlitch (W H : ℕ) (data : ByteArr)
    (p : EffectParams) : ByteArr :=
  fun j =>
    if 0 ≤ j ∧ Int.ediv j 4 < (W : ℤ) * (H : ℤ) then
      let x := Int.emod (Int.ediv j 4) W
      let y := Int.ediv (Int.ediv j 4) W
      let d := noiseDisplacement W H p.scale p.intensity p.iterations x y
      let src := pixIdx W (jsRem (x + d) W) (jsRem (y + d) H)
      let cs := noiseColorShift W H p.scale p.iterations x y
      let c := Int.emod j 4
      if c = 0 then
        toUint8Clamp (min 255 ((data src : ℝ) + (cs : ℝ) * ((p.intensity : ℝ) / 100)))
      else if c = 1 then
        toUint8Clamp (min 255 ((data (src + 1) : ℝ) + (cs : ℝ) * ((p.intensity : ℝ) / 100) / 2))
      else if c = 2 then
        toUint8Clamp (min 255 ((data (src + 2) : ℝ) - (cs : ℝ) * ((p.intensity : ℝ) / 100) / 2))
      else data (src + 3)
    else data j

/-! ### Effect Dispatcher (`GlitchProcessor.process`) -/

/-- `process` (lines 47-74): selects one of the five algorithms by
`params.effectType` and hands it the working buffer and the parameter
record as given. -/
noncomputable def process (W H : ℕ) (data : ByteArr) (p : EffectParams) :
    ByteArr :=
  match p.effectType with
  | EffectType.chromatic => applyChromaticAberration W H data p
  | EffectType.fractal => applyFractalDisplacement W H data p
  | EffectType.cellular => applyCellularAutomata W H data p
  | EffectType.wave => applyWaveDistortion W H data p
  | EffectType.noise => applyPerlinNoiseGlitch W H data p

/-! ### Index bookkeeping -/

/-- Decomposition of a byte index `pixIdx W x y + c` back into its pixel
and channel, as the per-byte effect definitions perform it. -/
lemma byteDecode (W H : ℕ) (x y c : ℤ) (hx : 0 ≤ x ∧ x < W)
    (hy : 0 ≤ y ∧ y < H) (hc : 0 ≤ c ∧ c < 4) :
    0 ≤ pixIdx W x y + c ∧
    Int.ediv (pixIdx W x y + c) 4 = y * W + x ∧
    Int.emod (pixIdx W x y + c) 4 = c ∧
    Int.emod (y * W + x) W = x ∧
    Int.ediv (y * W + x) W = y ∧
    y * W + x < (W : ℤ) * H := by
  obtain ⟨hx0, hxW⟩ := hx
  obtain ⟨hy0, hyH⟩ := hy
  obtain ⟨hc0, hc4⟩ := hc
  have hWpos : (0 : ℤ) < W := lt_of_le_of_lt hx0 hxW
  have hpix0 : 0 ≤ y * W + x :=
    add_nonneg (mul_nonneg hy0 (le_of_lt hWpos)) hx0
  refine ⟨?_, ?_, ?_, ?_, ?_, ?_⟩
  · have : (0 : ℤ) ≤ (y * W + x) * 4 := by positivity
    unfold pixIdx; linarith
  · show (pixIdx W x y + c) / 4 = y * W + x
    unfold pixIdx
    rw [add_comm, Int.add_mul_ediv_right c (y * W + x) (by norm_num),
      Int.ediv_eq_zero_of_lt hc0 hc4, zero_add]
  · show (pixIdx W x y + c) % 4 = c
    unfold pixIdx
    rw [add_comm, Int.add_mul_emod_self, Int.emod_eq_of_lt hc0 hc4]
  · show (y * W + x) % W = x
    rw [add_comm, Int.add_mul_emod_self, Int.emod_eq_of_lt hx0 hxW]
  · show (y * W + x) / W = y
    rw [add_comm, Int.add_mul_ediv_right x y (ne_of_gt hWpos),
      Int.ediv_eq_zero_of_lt hx0 hxW, zero_add]
  · have h1 : y + 1 ≤ (H : ℤ) := hyH
    nlinarith

/-- Truncated remainder equals the argument on its own range. -/
lemma jsRem_self_of_lt {x : ℤ} {L : ℕ} (h0 : 0 ≤ x) (hL : x < L) :
    jsRem x L = x := by
  unfold jsRem
  rw [Int.tmod_eq_emod h0 (Int.natCast_nonneg L), Int.emod_eq_of_lt h0 hL]

/-! ### C1 -/

/-- C1: FALSIFIED ON THE CODE.  The claim says every sampled coordinate
lies in `[0,W) × [0,H)` for every buffer with `W, H ≥ 1` and in-range
parameters.  With the chromatic effect at `intensity = 100`,
`iterations = 2` on a 3×1 buffer, iteration `i = 1` has `angle = π`, so
`dx = round(cos π * 20) = -20`, and at `x = 0` the sampled x-coordinate is
`(0 - 20 + 3) % 3 = -2` (JS remainder keeps the dividend's sign), outside
`[0, 3)`; the corresponding flat read index of the green channel is `-7`. -/
theorem c1_chromatic_reads_out_of_bounds :
    chromDx 100 2 1 = -20 ∧
    chromSrc 3 0 (chromDx 100 2 1) = -2 ∧
    ¬ (0 ≤ chromSrc 3 0 (chromDx 100 2 1) ∧
        chromSrc 3 0 (chromDx 100 2 1) < 3) ∧
    chromDy 100 2 1 = 0 ∧
    pixIdx 3 (chromSrc 3 0 (chromDx 100 2 1))
      (chromSrc 1 0 (chromDy 100 2 1)) + 1 = -7 := by
  have hoff : chromOffset 100 2 1 = 20 := by
    unfold chromOffset chromOffsetAmount
    norm_num
  have hangle : chromAngle 1 2 = Real.pi := by
    unfold chromAngle
    push_cast
    ring
  have hdx : chromDx 100 2 1 = -20 := by
    unfold chromDx
    rw [hangle, Real.cos_pi, hoff]
    have h : (-1 : ℝ) * ((20 : ℤ) : ℝ) = ((-20 : ℤ) : ℝ) := by norm_num
    rw [h, round_intCast]
  have hdy : chromDy 100 2 1 = 0 := by
    unfold chromDy
    rw [hangle, Real.sin_pi, hoff]
    rw [zero_mul, round_zero]
  refine ⟨hdx, ?_, ?_, hdy, ?_⟩
  · rw [hdx]; decide
  · rw [hdx]; decide
  · rw [hdx, hdy]; decide

/-! ### C3 -/

/-- C3: FALSIFIED ON THE CODE (code bug).  A 900×850 source triggers the
resize, the `width > height` branch fixes width at 800, and the computed
height `round(800 * 850 / 900) = 756` exceeds the 600 bound, contradicting
the claimed (and documented) 800×600 output bound. -/
theorem c3_resize_exceeds_bound :
    resizeDims 900 850 = (800, 756) ∧ ¬ (resizeDims 900 850).2 ≤ 600 := by
  have h : resizeDims 900 850 = (800, 756) := by
    unfold resizeDims
    norm_num [round_eq]
    decide
  exact ⟨h, by rw [h]; norm_num⟩

/-! ### C7 -/

/-- C7: FALSIFIED ON THE CODE.  The code floors `intensity * 0.2` once and
for all before the loop, so at `intensity = 13`, `iterations = 8`, `i = 6`
it uses `floor(floor(2.6) * 7 / 8) = 1`, while the claim's formula
`floor(13 * 0.2 * 7 / 8) = floor(2.275) = 2` differs. -/
theorem c7_counterexample :
    chromOffset 13 8 6 = 1 ∧ chromOffsetSpec 13 8 6 = 2 ∧
    chromOffset 13 8 6 ≠ chromOffsetSpec 13 8 6 := by
  refine ⟨?_, ?_, ?_⟩ <;>
    norm_num [chromOffset, chromOffsetSpec, chromOffsetAmount]

/-- C7 (amended): the offset magnitude used at iteration `i` is
`floor(floor(intensity * 0.2) * (i+1) / n)`, that is, the integer
`(intensity / 5) * (i + 1) / n` computed with integer division. -/
theorem c7_amended (I n i : ℕ) :
    chromOffset I n i = ((I / 5 * (i + 1) / n : ℕ) : ℤ) := by
  have h1 : chromOffsetAmount I = ((I / 5 : ℕ) : ℤ) := by
    unfold chromOffsetAmount
    have h : (I : ℚ) * (2/10) = ((I : ℕ) : ℚ) / ((5 : ℕ) : ℚ) := by
      push_cast
      ring
    rw [h, Rat.floor_natCast_div_natCast, ← Int.ofNat_ediv]
  unfold chromOffset
  rw [h1]
  have h2 : ((((I / 5 : ℕ) : ℤ) * (i + 1) : ℤ) : ℚ) =
      (((I / 5 * (i + 1) : ℕ) : ℤ) : ℚ) := by push_cast; ring
  rw [h2, Rat.floor_intCast_div_natCast, ← Int.ofNat_ediv]

/-! ### C9 -/

/-- C9 (amended): on a zero source dimension the load fails — the zero
dimension survives the resize and `getImageData` throws `IndexSizeError` —
and no buffer is returned.  The source performs no validation of its own:
no `InvalidImage` error and no pixel-count check exist. -/
theorem c9_amended (w h : ℕ) (hz : w = 0 ∨ h = 0) :
    glitchLoad w h = Except.error LoadError.indexSizeError := by
  rcases hz with rfl | rfl
  · unfold glitchLoad resizeDims
    split_ifs with h1 h2 <;> simp_all
  · unfold glitchLoad resizeDims
    split_ifs with h1 h2 <;> simp_all

/-- Witness for the amended C9 at a concrete input. -/
theorem c9_amended_witness :
    glitchLoad 0 5 = Except.error LoadError.indexSizeError :=
  c9_amended 0 5 (Or.inl rfl)

/-- C9: FALSIFIED ON THE CODE.  At source width 0 the load does fail and
returns no buffer, but the failure is the canvas API's `IndexSizeError`,
not an `InvalidImage` error raised by the code — the constructor contains
no validation at all. -/
theorem c9_counterexample :
    glitchLoad 0 5 = Except.error LoadError.indexSizeError ∧
    glitchLoad 0 5 ≠ Except.error LoadError.invalidImage := by
  constructor
  · unfold glitchLoad resizeDims
    norm_num
  · unfold glitchLoad resizeDims
    norm_num
    decide

/-! ### C2 -/

/-- A concrete 4×1 RGBA buffer: the red byte of pixel `(2, 0)` is 200,
every other byte is 0. -/
def cbuf : ByteArr := fun j => if j = 8 then 200 else 0

/-- C2: FALSIFIED ON THE CODE.  `process` performs no clamping, so the
out-of-range `intensity = 150` reaches the chromatic algorithm, where
`offsetAmount = floor(150 * 0.2) = 30` while `intensity = 100` gives 20:
on a 4×1 buffer with one iteration the red byte of pixel `(0,0)` averages
with pixel `(2,0)` in one case and with pixel `(0,0)` itself in the other,
so the outputs are not byte-identical. -/
theorem c2_counterexample :
    process 4 1 cbuf ⟨EffectType.chromatic, 150, 50, 1, 42⟩ 0 ≠
      process 4 1 cbuf ⟨EffectType.chromatic, 100, 50, 1, 42⟩ 0 := by
  have ha : chromAngle 0 1 = 0 := by
    unfold chromAngle
    norm_num
  have hdx1 : chromDx 150 1 0 = 30 := by
    unfold chromDx
    rw [ha, Real.cos_zero, one_mul]
    have h : chromOffset 150 1 0 = 30 := by
      norm_num [chromOffset, chromOffsetAmount]
    rw [h, round_intCast]
  have hdx2 : chromDx 100 1 0 = 20 := by
    unfold chromDx
    rw [ha, Real.cos_zero, one_mul]
    have h : chromOffset 100 1 0 = 20 := by
      norm_num [chromOffset, chromOffsetAmount]
    rw [h, round_intCast]
  have hdy1 : chromDy 150 1 0 = 0 := by
    unfold chromDy
    rw [ha, Real.sin_zero, zero_mul, round_zero]
  have hdy2 : chromDy 100 1 0 = 0 := by
    unfold chromDy
    rw [ha, Real.sin_zero, zero_mul, round_zero]
  show applyChromaticAberration 4 1 cbuf ⟨EffectType.chromatic, 150, 50, 1, 42⟩ 0 ≠
    applyChromaticAberration 4 1 cbuf ⟨EffectType.chromatic, 100, 50, 1, 42⟩ 0
  unfold applyChromaticAberration
  have hr : List.range 1 = [0] := rfl
  rw [hr]
  simp only [List.foldl_cons, List.foldl_nil]
  rw [hdx1, hdy1, hdx2, hdy2]
  decide

/-- C2 (amended): the dispatcher performs no clamping or validation — it
invokes the algorithm selected by `effectType` with the parameter record
exactly as given, so out-of-range values reach the algorithms unchanged. -/
theorem c2_amended (W H : ℕ) (data : ByteArr) (p : EffectParams) :
    (p.effectType = EffectType.chromatic →
      process W H data p = applyChromaticAberration W H data p) ∧
    (p.effectType = EffectType.fractal →
      process W H data p = applyFractalDisplacement W H data p) ∧
    (p.effectType = EffectType.cellular →
      process W H data p = applyCellularAutomata W H data p) ∧
    (p.effectType = EffectType.wave →
      process W H data p = applyWaveDistortion W H data p) ∧
    (p.effectType = EffectType.noise →
      process W H data p = applyPerlinNoiseGlitch W H data p) := by
  obtain ⟨t, I, s, n, sd⟩ := p
  refine ⟨?_, ?_, ?_, ?_, ?_⟩ <;> (intro h; cases h; rfl)

/-- Witness for the amended C2 at a concrete input. -/
theorem c2_amended_witness :
    process 4 1 cbuf ⟨EffectType.chromatic, 150, 50, 1, 42⟩ =
      applyChromaticAberration 4 1 cbuf ⟨EffectType.chromatic, 150, 50, 1, 42⟩ :=
  (c2_amended 4 1 cbuf ⟨EffectType.chromatic, 150, 50, 1, 42⟩).1 rfl

/-! ### Chromatic channel bookkeeping (shared by C8 and C10) -/

/-- A byte whose channel is not the one targeted by pass `i` is untouched
by that pass. -/
lemma chromPass_untouched (W H : ℕ) (data : ByteArr) (i : ℕ) (dx dy : ℤ)
    (cur : ByteArr) (j : ℤ) (h : Int.emod j 4 ≠ ((i % 3 : ℕ) : ℤ)) :
    chromPass W H data i dx dy cur j = cur j := by
  simp only [chromPass]
  split
  · next hcond => exact absurd hcond.2.1 h
  · rfl

/-- A byte whose channel is targeted by no pass of the list is untouched by
the whole fold. -/
lemma chromFold_untouched (W H : ℕ) (data : ByteArr) (dxf dyf : ℕ → ℤ)
    (l : List ℕ) (cur : ByteArr) (j : ℤ)
    (h : ∀ i ∈ l, Int.emod j 4 ≠ ((i % 3 : ℕ) : ℤ)) :
    (l.foldl (fun cur i => chromPass W H data i (dxf i) (dyf i) cur) cur) j =
      cur j := by
  induction l generalizing cur with
  | nil => rfl
  | cons i l ih =>
    rw [List.foldl_cons, ih _ (fun i' hi' => h i' (List.mem_cons_of_mem _ hi'))]
    exact chromPass_untouched W H data i (dxf i) (dyf i) cur j
      (h i (List.mem_cons_self i l))

/-- The chromatic effect never writes an alpha byte. -/
lemma chrom_alpha (W H : ℕ) (data : ByteArr) (p : EffectParams) (j : ℤ)
    (h : Int.emod j 4 = 3) :
    applyChromaticAberration W H data p j = data j := by
  unfold applyChromaticAberration
  apply chromFold_untouched
  intro i _
  rw [h]
  omega

/-! ### C10 -/

/-- C10: iteration `i` of Chromatic Displacement writes only the channel
`i % 3` (any byte of a different channel is untouched by pass `i`); with
`iterations = 1` only red is ever written, so green (channel 1) and blue
(channel 2) bytes of the output equal the input's; with `iterations = 2`
blue bytes equal the input's. -/
theorem c10_chromatic_channel_targeting (W H : ℕ) (data cur : ByteArr)
    (i : ℕ) (dx dy : ℤ) (j : ℤ) (p1 p2 : EffectParams)
    (hp1 : p1.iterations = 1) (hp2 : p2.iterations = 2)
    (hj : Int.emod j 4 ≠ ((i % 3 : ℕ) : ℤ)) :
    chromPass W H data i dx dy cur j = cur j ∧
    (Int.emod j 4 = 1 ∨ Int.emod j 4 = 2 →
      applyChromaticAberration W H data p1 j = data j) ∧
    (Int.emod j 4 = 2 → applyChromaticAberration W H data p2 j = data j) := by
  refine ⟨chromPass_untouched W H data i dx dy cur j hj, ?_, ?_⟩
  · intro hch
    unfold applyChromaticAberration
    rw [hp1]
    apply chromFold_untouched
    intro i' hi'
    have hlt := List.mem_range.mp hi'
    rcases hch with h | h <;> rw [h] <;> omega
  · intro hch
    unfold applyChromaticAberration
    rw [hp2]
    apply chromFold_untouched
    intro i' hi'
    have hlt := List.mem_range.mp hi'
    rw [hch]
    omega

/-- Witness for C10 at concrete inputs. -/
theorem c10_witness :
    chromPass 1 1 cbuf 0 5 6 cbuf 1 = cbuf 1 ∧
    applyChromaticAberration 1 1 cbuf ⟨EffectType.chromatic, 50, 50, 1, 42⟩ 1 =
      cbuf 1 ∧
    applyChromaticAberration 1 1 cbuf ⟨EffectType.chromatic, 50, 50, 2, 42⟩ 2 =
      cbuf 2 := by
  have h1 := c10_chromatic_channel_targeting 1 1 cbuf cbuf 0 5 6 1
    ⟨EffectType.chromatic, 50, 50, 1, 42⟩ ⟨EffectType.chromatic, 50, 50, 2, 42⟩
    rfl rfl (by decide)
  have h2 := c10_chromatic_channel_targeting 1 1 cbuf cbuf 0 5 6 2
    ⟨EffectType.chromatic, 50, 50, 1, 42⟩ ⟨EffectType.chromatic, 50, 50, 2, 42⟩
    rfl rfl (by decide)
  exact ⟨h1.1, h1.2.1 (Or.inl (by decide)), h2.2.2 (by decide)⟩

/-! ### C8 -/

/-- C8: alpha invariants of the five effects.  Chromatic Displacement and
Cellular Evolution leave every alpha byte equal to the input's (alpha is
never written); Fractal, Wave, and Layered-Noise set the alpha byte of each
pixel to the alpha byte of the pixel they sample, copied verbatim. -/
theorem c8_alpha_invariants (W H : ℕ) (data : ByteArr) (p : EffectParams)
    (x y : ℤ) (hx : 0 ≤ x ∧ x < W) (hy : 0 ≤ y ∧ y < H) :
    applyChromaticAberration W H data p (pixIdx W x y + 3) =
      data (pixIdx W x y + 3) ∧
    applyCellularAutomata W H data p (pixIdx W x y + 3) =
      data (pixIdx W x y + 3) ∧
    applyFractalDisplacement W H data p (pixIdx W x y + 3) =
      data (pixIdx W
        (fractalSrc W x (fractalDisplacement W H p.scale p.intensity p.iterations x y))
        (fractalSrc H y (fractalDisplacement W H p.scale p.intensity p.iterations x y))
        + 3) ∧
    applyWaveDistortion W H data p (pixIdx W x y + 3) =
      data (pixIdx W (waveSrc W x (waveDX W H p.scale p.intensity p.iterations x y))
        (waveSrc H y (waveDY W H p.scale p.intensity p.iterations x y)) + 3) ∧
    applyPerlinNoiseGlitch W H data p (pixIdx W x y + 3) =
      data (pixIdx W
        (jsRem (x + noiseDisplacement W H p.scale p.intensity p.iterations x y) W)
        (jsRem (y + noiseDisplacement W H p.scale p.intensity p.iterations x y) H)
        + 3) := by
  obtain ⟨h0, hdiv4, hmod4, hmodW, hdivW, hlt⟩ :=
    byteDecode W H x y 3 hx hy (by norm_num)
  have hcond : 0 ≤ pixIdx W x y + 3 ∧
      Int.ediv (pixIdx W x y + 3) 4 < (W : ℤ) * (H : ℤ) :=
    ⟨h0, by rw [hdiv4]; exact hlt⟩
  refine ⟨chrom_alpha W H data p _ hmod4, ?_, ?_, ?_, ?_⟩
  · simp only [applyCellularAutomata]
    rw [if_neg]
    intro hc
    have h3 := hc.2.2
    rw [hmod4] at h3
    exact absurd h3 (by norm_num)
  · simp only [applyFractalDisplacement]
    rw [if_pos hcond, hdiv4, hmodW, hdivW, hmod4]
  · simp only [applyWaveDistortion]
    rw [if_pos hcond, hdiv4, hmodW, hdivW, hmod4]
  · simp only [applyPerlinNoiseGlitch]
    rw [if_pos hcond, hdiv4, hmodW, hdivW, hmod4]
    norm_num

/-- Witness for C8 at a concrete input. -/
theorem c8_alpha_invariants_witness :
    applyChromaticAberration 1 1 cbuf ⟨EffectType.chromatic, 85, 60, 16, 42⟩
      (pixIdx 1 0 0 + 3) = cbuf (pixIdx 1 0 0 + 3) ∧
    applyCellularAutomata 1 1 cbuf ⟨EffectType.chromatic, 85, 60, 16, 42⟩
      (pixIdx 1 0 0 + 3) = cbuf (pixIdx 1 0 0 + 3) ∧
    applyFractalDisplacement 1 1 cbuf ⟨EffectType.chromatic, 85, 60, 16, 42⟩
      (pixIdx 1 0 0 + 3) =
      cbuf (pixIdx 1 (fractalSrc 1 0 (fractalDisplacement 1 1 60 85 16 0 0))
        (fractalSrc 1 0 (fractalDisplacement 1 1 60 85 16 0 0)) + 3) ∧
    applyWaveDistortion 1 1 cbuf ⟨EffectType.chromatic, 85, 60, 16, 42⟩
      (pixIdx 1 0 0 + 3) =
      cbuf (pixIdx 1 (waveSrc 1 0 (waveDX 1 1 60 85 16 0 0))
        (waveSrc 1 0 (waveDY 1 1 60 85 16 0 0)) + 3) ∧
    applyPerlinNoiseGlitch 1 1 cbuf ⟨EffectType.chromatic, 85, 60, 16, 42⟩
      (pixIdx 1 0 0 + 3) =
      cbuf (pixIdx 1 (jsRem (0 + noiseDisplacement 1 1 60 85 16 0 0) 1)
        (jsRem (0 + noiseDisplacement 1 1 60 85 16 0 0) 1) + 3) :=
  c8_alpha_invariants 1 1 cbuf ⟨EffectType.chromatic, 85, 60, 16, 42⟩ 0 0
    (by constructor <;> decide) (by constructor <;> decide)

/-! ### C5 -/

/-- Storing an integer byte value through `ToUint8Clamp` is the identity. -/
lemma toUint8Clamp_byte (m : ℕ) (hm : m ≤ 255) : toUint8Clamp (m : ℝ) = m := by
  unfold toUint8Clamp roundTiesEven
  rw [Int.floor_natCast]
  split_ifs with h1 h2 h3
  · have hm0 : m = 0 := by exact_mod_cast le_antisymm (by exact_mod_cast h1) (Nat.zero_le m)
    omega
  · have h255 : (255 : ℕ) ≤ m := by exact_mod_cast h2
    have hm255 : m = 255 := le_antisymm hm h255
    omega
  · exact Int.toNat_natCast m
  · exact absurd (by push_cast; norm_num) h3
  · exact absurd (by push_cast; norm_num) h3
  · exact absurd (by push_cast; norm_num) h3

/-- The real-valued JS wrap `Math.floor((x + 0 + L) % L)` is the identity on
`[0, L)`. -/
lemma waveSrc_zero (L : ℕ) (x : ℤ) (h0 : 0 ≤ x) (hL : x < L) :
    waveSrc L x 0 = x := by
  have hLpos : (0 : ℝ) < L := by exact_mod_cast lt_of_le_of_lt h0 hL
  have harg : ((x : ℝ) + 0 + L) / L = (x : ℝ) / L + 1 := by field_simp
  have h01 : (0 : ℝ) ≤ (x : ℝ) / L :=
    div_nonneg (by exact_mod_cast h0) hLpos.le
  have h1 : (x : ℝ) / L < 1 := (div_lt_one hLpos).mpr (by exact_mod_cast hL)
  have htr : realTrunc (((x : ℝ) + 0 + L) / L) = 1 := by
    unfold realTrunc
    rw [harg, if_pos (by linarith)]
    rw [Int.floor_eq_iff]
    constructor
    · push_cast
      linarith
    · push_cast
      linarith
  unfold waveSrc jsFmod
  rw [htr]
  push_cast
  rw [show (x : ℝ) + 0 + (L : ℝ) - (L : ℝ) * 1 = (x : ℝ) by ring,
    Int.floor_intCast]

/-- C5: with `intensity = 0` the Fractal, Wave, and Layered-Noise effects
are the identity: every per-pixel displacement is 0 (including the noise
effect's color-shift contributions, which vanish), and every byte of the
output equals the corresponding input byte. -/
theorem c5_intensity_zero_identity (W H : ℕ) (data : ByteArr)
    (scale n seed : ℕ) (x y c : ℤ)
    (hn : 1 ≤ n) (hdata : ∀ j, data j ≤ 255)
    (hx : 0 ≤ x ∧ x < W) (hy : 0 ≤ y ∧ y < H) (hc0 : 0 ≤ c) (hc4 : c < 4) :
    fractalDisplacement W H scale 0 n x y = 0 ∧
    waveDX W H scale 0 n x y = 0 ∧
    waveDY W H scale 0 n x y = 0 ∧
    noiseDisplacement W H scale 0 n x y = 0 ∧
    applyFractalDisplacement W H data ⟨EffectType.fractal, 0, scale, n, seed⟩
      (pixIdx W x y + c) = data (pixIdx W x y + c) ∧
    applyWaveDistortion W H data ⟨EffectType.wave, 0, scale, n, seed⟩
      (pixIdx W x y + c) = data (pixIdx W x y + c) ∧
    applyPerlinNoiseGlitch W H data ⟨EffectType.noise, 0, scale, n, seed⟩
      (pixIdx W x y + c) = data (pixIdx W x y + c) := by
  obtain ⟨h0, hdiv4, hmod4, hmodW, hdivW, hlt⟩ :=
    byteDecode W H x y c hx hy ⟨hc0, hc4⟩
  have hcond : 0 ≤ pixIdx W x y + c ∧
      Int.ediv (pixIdx W x y + c) 4 < (W : ℤ) * (H : ℤ) :=
    ⟨h0, by rw [hdiv4]; exact hlt⟩
  have hfd : fractalDisplacement W H scale 0 n x y = 0 := by
    unfold fractalDisplacement
    push_cast
    rw [mul_zero, Int.floor_zero]
  have hwdx : waveDX W H scale 0 n x y = 0 := by
    unfold waveDX
    push_cast
    simp
  have hwdy : waveDY W H scale 0 n x y = 0 := by
    unfold waveDY
    push_cast
    simp
  have hnd : noiseDisplacement W H scale 0 n x y = 0 := by
    unfold noiseDisplacement
    push_cast
    rw [mul_zero, Int.floor_zero]
  have hsx : fractalSrc W x 0 = x := by
    unfold fractalSrc
    rw [add_zero]
    exact jsRem_self_of_lt hx.1 hx.2
  have hsy : fractalSrc H y 0 = y := by
    unfold fractalSrc
    rw [add_zero]
    exact jsRem_self_of_lt hy.1 hy.2
  have hb : ∀ k : ℤ, ((data k : ℝ)) ≤ 255 := fun k => by
    exact_mod_cast hdata k
  refine ⟨hfd, hwdx, hwdy, hnd, ?_, ?_, ?_⟩
  · simp only [applyFractalDisplacement]
    rw [if_pos hcond, hdiv4, hmodW, hdivW, hfd, hsx, hsy, hmod4]
  · simp only [applyWaveDistortion]
    rw [if_pos hcond, hdiv4, hmodW, hdivW, hwdx, hwdy,
      waveSrc_zero W x hx.1 hx.2, waveSrc_zero H y hy.1 hy.2, hmod4]
  · simp only [applyPerlinNoiseGlitch]
    rw [if_pos hcond, hdiv4, hmodW, hdivW, hnd, hmod4]
    have hjx : jsRem (x + 0) W = x := by
      rw [add_zero]; exact jsRem_self_of_lt hx.1 hx.2
    have hjy : jsRem (y + 0) H = y := by
      rw [add_zero]; exact jsRem_self_of_lt hy.1 hy.2
    rw [hjx, hjy]
    have hi0 : (((0 : ℕ) : ℝ) / 100) = 0 := by norm_num
    interval_cases c
    · rw [if_pos rfl]
      rw [show (noiseColorShift W H scale n x y : ℝ) * (((0 : ℕ) : ℝ) / 100) = 0
        by rw [hi0, mul_zero]]
      rw [add_zero, min_eq_right (hb _), toUint8Clamp_byte _ (hdata _), add_zero]
    · rw [if_neg (by norm_num), if_pos rfl]
      rw [show (noiseColorShift W H scale n x y : ℝ) * (((0 : ℕ) : ℝ) / 100) / 2 = 0
        by rw [hi0, mul_zero, zero_div]]
      rw [add_zero, min_eq_right (hb _), toUint8Clamp_byte _ (hdata _)]
    · rw [if_neg (by norm_num), if_neg (by norm_num), if_pos rfl]
      rw [show (noiseColorShift W H scale n x y : ℝ) * (((0 : ℕ) : ℝ) / 100) / 2 = 0
        by rw [hi0, mul_zero, zero_div]]
      rw [sub_zero, min_eq_right (hb _), toUint8Clamp_byte _ (hdata _)]
    · rw [if_neg (by norm_num), if_neg (by norm_num), if_neg (by norm_num)]

/-- Witness for C5 at a concrete input. -/
theorem c5_intensity_zero_identity_witness :
    fractalDisplacement 1 1 10 0 1 0 0 = 0 ∧
    waveDX 1 1 10 0 1 0 0 = 0 ∧
    waveDY 1 1 10 0 1 0 0 = 0 ∧
    noiseDisplacement 1 1 10 0 1 0 0 = 0 ∧
    applyFractalDisplacement 1 1 cbuf ⟨EffectType.fractal, 0, 10, 1, 42⟩
      (pixIdx 1 0 0 + 0) = cbuf (pixIdx 1 0 0 + 0) ∧
    applyWaveDistortion 1 1 cbuf ⟨EffectType.wave, 0, 10, 1, 42⟩
      (pixIdx 1 0 0 + 0) = cbuf (pixIdx 1 0 0 + 0) ∧
    applyPerlinNoiseGlitch 1 1 cbuf ⟨EffectType.noise, 0, 10, 1, 42⟩
      (pixIdx 1 0 0 + 0) = cbuf (pixIdx 1 0 0 + 0) :=
  c5_intensity_zero_identity 1 1 cbuf 10 1 42 0 0 0 (by norm_num)
    (fun j => by unfold cbuf; split <;> norm_num)
    (by constructor <;> decide) (by constructor <;> decide)
    (by decide) (by decide)

/-! ### C6 -/

/-- The generation rule never rewrites a border cell. -/
lemma caStep_border (W H : ℕ) (g : ℤ → ℕ) (x y : ℤ)
    (hx : 0 ≤ x ∧ x < W) (hy : 0 ≤ y ∧ y < H)
    (hb : x = 0 ∨ y = 0 ∨ x = (W : ℤ) - 1 ∨ y = (H : ℤ) - 1) :
    caStep W H g (y * W + x) = g (y * W + x) := by
  obtain ⟨_, _, _, hmodW, hdivW, _⟩ :=
    byteDecode W H x y 0 hx hy (by norm_num)
  simp only [caStep]
  rw [hmodW, hdivW, if_neg]
  intro hcond
  rcases hb with rfl | rfl | rfl | rfl <;> omega

/-- Border cells keep their initial value through any number of
generations. -/
lemma caIter_border (W H : ℕ) (data : ByteArr) (x y : ℤ) (k : ℕ)
    (hx : 0 ≤ x ∧ x < W) (hy : 0 ≤ y ∧ y < H)
    (hb : x = 0 ∨ y = 0 ∨ x = (W : ℤ) - 1 ∨ y = (H : ℤ) - 1) :
    (caStep W H)^[k] (initGrid data) (y * W + x) = initGrid data (y * W + x) := by
  induction k with
  | zero => rfl
  | succ k ih =>
    rw [Function.iterate_succ_apply', caStep_border W H _ x y hx hy hb, ih]

/-- The new value of a cell depends only on the previous generation's grid
on the 3×3 block around it: the update reads the old snapshot, never cells
already updated in the same generation. -/
lemma caStep_congr (W H : ℕ) (g g' : ℤ → ℕ) (q : ℤ)
    (hagree : ∀ dx dy : ℤ, dx.natAbs ≤ 1 → dy.natAbs ≤ 1 →
      g ((Int.ediv q W + dy) * W + (Int.emod q W + dx)) =
        g' ((Int.ediv q W + dy) * W + (Int.emod q W + dx))) :
    caStep W H g q = caStep W H g' q := by
  have hp : (Int.ediv q W + 0) * W + (Int.emod q W + 0) = q := by
    rw [add_zero, add_zero, mul_comm]
    exact Int.ediv_add_emod q W
  have hgq : g q = g' q := by
    have h := hagree 0 0 (by decide) (by decide)
    rwa [hp] at h
  have t1 := hagree (-1) (-1) (by decide) (by decide)
  have t2 := hagree 0 (-1) (by decide) (by decide)
  have t3 := hagree 1 (-1) (by decide) (by decide)
  have t4 := hagree (-1) 0 (by decide) (by decide)
  have t5 := hagree 1 0 (by decide) (by decide)
  have t6 := hagree (-1) 1 (by decide) (by decide)
  have t7 := hagree 0 1 (by decide) (by decide)
  have t8 := hagree 1 1 (by decide) (by decide)
  have hnb : caNeighbors W g (Int.emod q W) (Int.ediv q W) =
      caNeighbors W g' (Int.emod q W) (Int.ediv q W) := by
    unfold caNeighbors
    ring_nf
    ring_nf at t1 t2 t3 t4 t5 t6 t7 t8
    rw [t1, t2, t3, t4, t5, t6, t7, t8]
  simp only [caStep]
  rw [hgq, hnb]

/-- C6: in Cellular Evolution every border cell keeps its initialization
value through all generations, the final recolor at a border pixel uses
that initial value, and a generation's update at any cell is a function of
the previous generation's grid restricted to the 3×3 block around the cell
(snapshot semantics — no same-generation write is observed). -/
theorem c6_cellular_invariants (W H : ℕ) (data : ByteArr) (p : EffectParams)
    (x y c : ℤ) (k : ℕ) (g g' : ℤ → ℕ) (q : ℤ)
    (hx : 0 ≤ x ∧ x < W) (hy : 0 ≤ y ∧ y < H)
    (hborder : x = 0 ∨ y = 0 ∨ x = (W : ℤ) - 1 ∨ y = (H : ℤ) - 1)
    (hc0 : 0 ≤ c) (hc3 : c < 3)
    (hagree : ∀ dx dy : ℤ, dx.natAbs ≤ 1 → dy.natAbs ≤ 1 →
      g ((Int.ediv q W + dy) * W + (Int.emod q W + dx)) =
        g' ((Int.ediv q W + dy) * W + (Int.emod q W + dx))) :
    (caStep W H)^[k] (initGrid data) (y * W + x) = initGrid data (y * W + x) ∧
    applyCellularAutomata W H data p (pixIdx W x y + c) =
      clampByte (round ((data (pixIdx W x y + c) : ℚ) *
        (1 - (initGrid data (y * W + x) : ℚ) * (p.intensity : ℚ) / 100))) ∧
    caStep W H g q = caStep W H g' q := by
  obtain ⟨h0, hdiv4, hmod4, hmodW, hdivW, hlt⟩ :=
    byteDecode W H x y c hx hy ⟨hc0, by linarith⟩
  refine ⟨caIter_border W H data x y k hx hy hborder, ?_,
    caStep_congr W H g g' q hagree⟩
  simp only [applyCellularAutomata]
  rw [if_pos ⟨h0, by rw [hdiv4]; exact hlt, by rw [hmod4]; exact hc3⟩, hdiv4]
  unfold caGrid
  rw [caIter_border W H data x y p.iterations hx hy hborder]

/-- Witness for C6 at a concrete input (on a 2×2 grid every cell is a
border cell). -/
theorem c6_cellular_invariants_witness :
    (caStep 2 2)^[3] (initGrid cbuf) (0 * 2 + 1) = initGrid cbuf (0 * 2 + 1) ∧
    applyCellularAutomata 2 2 cbuf ⟨EffectType.cellular, 90, 50, 12, 456⟩
      (pixIdx 2 1 0 + 0) =
      clampByte (round ((cbuf (pixIdx 2 1 0 + 0) : ℚ) *
        (1 - (initGrid cbuf (0 * 2 + 1) : ℚ) * ((90 : ℕ) : ℚ) / 100))) ∧
    caStep 2 2 (initGrid cbuf) 5 = caStep 2 2 (initGrid cbuf) 5 :=
  c6_cellular_invariants 2 2 cbuf ⟨EffectType.cellular, 90, 50, 12, 456⟩
    1 0 0 3 (initGrid cbuf) (initGrid cbuf) 5
    (by constructor <;> decide) (by constructor <;> decide)
    (Or.inr (Or.inl rfl)) (by decide) (by decide)
    (fun _ _ _ _ => rfl)

/-! ### C4 -/

/-- The all-zero buffer (a black, fully transparent image). -/
def zbuf : ByteArr := fun _ => 0

/-- The flat index sampled by the noise effect for pixel `(x, y)`
(lines 318-322). -/
noncomputable def noiseSrcIdx (W H scale I n : ℕ) (x y : ℤ) : ℤ :=
  pixIdx W (jsRem (x + noiseDisplacement W H scale I n x y) W)
    (jsRem (y + noiseDisplacement W H scale I n x y) H)

/-- `roundTiesEven` moves its argument's floor by at most one. -/
lemma roundTiesEven_bounds (v : ℝ) :
    ⌊v⌋ ≤ roundTiesEven v ∧ roundTiesEven v ≤ ⌊v⌋ + 1 := by
  unfold roundTiesEven
  split_ifs <;> omega

/-- The `ToUint8Clamp` store equals clamping the ties-to-even rounding of
the value into `[0, 255]`. -/
lemma toUint8Clamp_eq (v : ℝ) :
    toUint8Clamp v = (max 0 (min 255 (roundTiesEven v))).toNat := by
  obtain ⟨hrl, hru⟩ := roundTiesEven_bounds v
  unfold toUint8Clamp
  split_ifs with h1 h2
  · have hf0 : ⌊v⌋ ≤ 0 := by
      have h := Int.floor_le_floor h1
      simpa using h
    have hr0 : roundTiesEven v ≤ 0 := by
      unfold roundTiesEven
      split_ifs with ha hb
      · exact hf0
      · have hfl : (⌊v⌋ : ℝ) ≤ v := Int.floor_le v
        have h' : (⌊v⌋ : ℝ) < 0 := by linarith
        have h'' : ⌊v⌋ < 0 := by exact_mod_cast h'
        omega
      · exact hf0
      · have hfr : v - ⌊v⌋ = 1/2 := le_antisymm (not_lt.mp hb) (not_lt.mp ha)
        have h' : (⌊v⌋ : ℝ) < 0 := by linarith
        have h'' : ⌊v⌋ < 0 := by exact_mod_cast h'
        omega
    rw [min_eq_right (le_trans hr0 (by norm_num)), max_eq_left hr0]
    rfl
  · have hf : (255 : ℤ) ≤ ⌊v⌋ := Int.le_floor.mpr (by exact_mod_cast h2)
    have hr : (255 : ℤ) ≤ roundTiesEven v := le_trans hf hrl
    rw [min_eq_left hr, max_eq_right (by norm_num)]
    rfl
  · have hv0 : 0 ≤ v := le_of_lt (not_le.mp h1)
    have hf0 : 0 ≤ ⌊v⌋ := Int.floor_nonneg.mpr hv0
    have hf255 : ⌊v⌋ < 255 := by
      have h' : (⌊v⌋ : ℝ) < 255 := lt_of_le_of_lt (Int.floor_le v) (not_le.mp h2)
      exact_mod_cast h'
    rw [min_eq_right (le_trans hru (by omega)), max_eq_right (le_trans hf0 hrl)]

/-- The four bytes written by the noise effect at pixel `(x, y)`, read off
the source (lines 326-339). -/
lemma noiseByte (W H : ℕ) (data : ByteArr) (I scale n seed : ℕ) (x y : ℤ)
    (hx : 0 ≤ x ∧ x < W) (hy : 0 ≤ y ∧ y < H) :
    applyPerlinNoiseGlitch W H data ⟨EffectType.noise, I, scale, n, seed⟩
      (pixIdx W x y + 0) =
      toUint8Clamp (min 255 ((data (noiseSrcIdx W H scale I n x y) : ℝ) +
        (noiseColorShift W H scale n x y : ℝ) * ((I : ℝ) / 100))) ∧
    applyPerlinNoiseGlitch W H data ⟨EffectType.noise, I, scale, n, seed⟩
      (pixIdx W x y + 1) =
      toUint8Clamp (min 255 ((data (noiseSrcIdx W H scale I n x y + 1) : ℝ) +
        (noiseColorShift W H scale n x y : ℝ) * ((I : ℝ) / 100) / 2)) ∧
    applyPerlinNoiseGlitch W H data ⟨EffectType.noise, I, scale, n, seed⟩
      (pixIdx W x y + 2) =
      toUint8Clamp (min 255 ((data (noiseSrcIdx W H scale I n x y + 2) : ℝ) -
        (noiseColorShift W H scale n x y : ℝ) * ((I : ℝ) / 100) / 2)) ∧
    applyPerlinNoiseGlitch W H data ⟨EffectType.noise, I, scale, n, seed⟩
      (pixIdx W x y + 3) = data (noiseSrcIdx W H scale I n x y + 3) := by
  obtain ⟨h0a, hdiv4a, hmod4a, hmodW, hdivW, hlt⟩ :=
    byteDecode W H x y 0 hx hy (by norm_num)
  obtain ⟨h0b, hdiv4b, hmod4b, _, _, _⟩ :=
    byteDecode W H x y 1 hx hy (by norm_num)
  obtain ⟨h0c, hdiv4c, hmod4c, _, _, _⟩ :=
    byteDecode W H x y 2 hx hy (by norm_num)
  obtain ⟨h0d, hdiv4d, hmod4d, _, _, _⟩ :=
    byteDecode W H x y 3 hx hy (by norm_num)
  refine ⟨?_, ?_, ?_, ?_⟩
  · simp only [applyPerlinNoiseGlitch, noiseSrcIdx]
    rw [if_pos ⟨h0a, by rw [hdiv4a]; exact hlt⟩, hdiv4a, hmodW, hdivW, hmod4a,
      if_pos rfl]
  · simp only [applyPerlinNoiseGlitch, noiseSrcIdx]
    rw [if_pos ⟨h0b, by rw [hdiv4b]; exact hlt⟩, hdiv4b, hmodW, hdivW, hmod4b,
      if_neg (by norm_num), if_pos rfl]
  · simp only [applyPerlinNoiseGlitch, noiseSrcIdx]
    rw [if_pos ⟨h0c, by rw [hdiv4c]; exact hlt⟩, hdiv4c, hmodW, hdivW, hmod4c,
      if_neg (by norm_num), if_neg (by norm_num), if_pos rfl]
  · simp only [applyPerlinNoiseGlitch, noiseSrcIdx]
    rw [if_pos ⟨h0d, by rw [hdiv4d]; exact hlt⟩, hdiv4d, hmodW, hdivW, hmod4d,
      if_neg (by norm_num), if_neg (by norm_num), if_neg (by norm_num)]

/-- The octave sum at pixel `(0, 0)` with one octave is 0. -/
lemma noiseNormalized_at_zero : noiseNormalized 1 1 10 1 0 0 = 1/2 := by
  have hraw : noiseRaw 1 1 10 1 0 0 = 0 := by
    simp [noiseRaw]
  have hmax : noiseMax 1 = 1 := by
    simp [noiseMax]
  unfold noiseNormalized
  rw [hraw, hmax]
  norm_num

/-- C4: FALSIFIED ON THE CODE.  At pixel `(0,0)` of an all-zero 1×1 buffer
with `intensity = 100`, `scale = 10`, one iteration, the normalized noise
is 1/2, `colorShift = 127`, and the blue formula computes
`min(255, 0 - 63.5) = -63.5`; but the output buffer is a
`Uint8ClampedArray`, whose store clamps below at 0, so the stored blue byte
is 0, not a value below 0 — the claimed absence of a lower clamp does not
survive the store. -/
theorem c4_counterexample :
    applyPerlinNoiseGlitch 1 1 zbuf ⟨EffectType.noise, 100, 10, 1, 0⟩
      (pixIdx 1 0 0 + 2) = 0 ∧
    min (255 : ℝ) ((zbuf (noiseSrcIdx 1 1 10 100 1 0 0 + 2) : ℝ) -
      (noiseColorShift 1 1 10 1 0 0 : ℝ) * ((100 : ℝ) / 100) / 2) = -(127/2) ∧
    ((applyPerlinNoiseGlitch 1 1 zbuf ⟨EffectType.noise, 100, 10, 1, 0⟩
        (pixIdx 1 0 0 + 2) : ℕ) : ℝ) ≠
      min (255 : ℝ) ((zbuf (noiseSrcIdx 1 1 10 100 1 0 0 + 2) : ℝ) -
        (noiseColorShift 1 1 10 1 0 0 : ℝ) * ((100 : ℝ) / 100) / 2) := by
  have hcs : noiseColorShift 1 1 10 1 0 0 = 127 := by
    unfold noiseColorShift
    rw [noiseNormalized_at_zero, show (1/2 : ℝ) * 255 = 255/2 by ring,
      Int.floor_eq_iff]
    norm_num
  have hd : noiseDisplacement 1 1 10 100 1 0 0 = 50 := by
    unfold noiseDisplacement
    rw [noiseNormalized_at_zero,
      show (1/2 : ℝ) * ((100 : ℕ) : ℝ) = ((50 : ℤ) : ℝ) by norm_num,
      Int.floor_intCast]
  have hsrc : noiseSrcIdx 1 1 10 100 1 0 0 = 0 := by
    unfold noiseSrcIdx
    rw [hd]
    decide
  have hmin : min (255 : ℝ) ((zbuf (noiseSrcIdx 1 1 10 100 1 0 0 + 2) : ℝ) -
      (noiseColorShift 1 1 10 1 0 0 : ℝ) * ((100 : ℝ) / 100) / 2) = -(127/2) := by
    rw [hsrc, hcs]
    norm_num [zbuf]
  have hblue := (noiseByte 1 1 zbuf 100 10 1 0 0 0 (by constructor <;> decide)
    (by constructor <;> decide)).2.2.1
  have hstore : applyPerlinNoiseGlitch 1 1 zbuf ⟨EffectType.noise, 100, 10, 1, 0⟩
      (pixIdx 1 0 0 + 2) = 0 := by
    rw [hblue, hsrc, hcs]
    have harg : min (255 : ℝ) ((zbuf (0 + 2) : ℝ) -
        ((127 : ℤ) : ℝ) * (((100 : ℕ) : ℝ) / 100) / 2) = -(127/2) := by
      norm_num [zbuf]
    rw [harg]
    unfold toUint8Clamp
    rw [if_pos (by norm_num)]
  refine ⟨hstore, hmin, ?_⟩
  rw [hstore, hmin]
  norm_num

/-- C4 (amended): the per-pixel channel formulas hold with the byte-store
semantics made explicit — each computed float passes through
`ToUint8Clamp`, i.e. it is rounded ties-to-even and clamped into
`[0, 255]`.  In particular blue IS clamped below at 0 by the store (the
formula itself has no lower clamp, but the stored byte does), and red and
green are likewise rounded. -/
theorem c4_amended (W H : ℕ) (data : ByteArr) (I scale n seed : ℕ)
    (x y : ℤ) (hx : 0 ≤ x ∧ x < W) (hy : 0 ≤ y ∧ y < H) :
    applyPerlinNoiseGlitch W H data ⟨EffectType.noise, I, scale, n, seed⟩
      (pixIdx W x y + 0) =
      (max 0 (min 255 (roundTiesEven (min 255
        ((data (noiseSrcIdx W H scale I n x y) : ℝ) +
          (noiseColorShift W H scale n x y : ℝ) * ((I : ℝ) / 100)))))).toNat ∧
    applyPerlinNoiseGlitch W H data ⟨EffectType.noise, I, scale, n, seed⟩
      (pixIdx W x y + 1) =
      (max 0 (min 255 (roundTiesEven (min 255
        ((data (noiseSrcIdx W H scale I n x y + 1) : ℝ) +
          (noiseColorShift W H scale n x y : ℝ) * ((I : ℝ) / 100) / 2))))).toNat ∧
    applyPerlinNoiseGlitch W H data ⟨EffectType.noise, I, scale, n, seed⟩
      (pixIdx W x y + 2) =
      (max 0 (min 255 (roundTiesEven (min 255
        ((data (noiseSrcIdx W H scale I n x y + 2) : ℝ) -
          (noiseColorShift W H scale n x y : ℝ) * ((I : ℝ) / 100) / 2))))).toNat := by
  obtain ⟨h1, h2, h3, _⟩ := noiseByte W H data I scale n seed x y hx hy
  exact ⟨by rw [h1, toUint8Clamp_eq], by rw [h2, toUint8Clamp_eq],
    by rw [h3, toUint8Clamp_eq]⟩

/-- Witness for the amended C4 at a concrete input. -/
theorem c4_amended_witness :
    applyPerlinNoiseGlitch 1 1 zbuf ⟨EffectType.noise, 100, 10, 1, 0⟩
      (pixIdx 1 0 0 + 0) =
      (max 0 (min 255 (roundTiesEven (min 255
        ((zbuf (noiseSrcIdx 1 1 10 100 1 0 0) : ℝ) +
          (noiseColorShift 1 1 10 1 0 0 : ℝ) * (((100 : ℕ) : ℝ) / 100)))))).toNat ∧
    applyPerlinNoiseGlitch 1 1 zbuf ⟨EffectType.noise, 100, 10, 1, 0⟩
      (pixIdx 1 0 0 + 1) =
      (max 0 (min 255 (roundTiesEven (min 255
        ((zbuf (noiseSrcIdx 1 1 10 100 1 0 0 + 1) : ℝ) +
          (noiseColorShift 1 1 10 1 0 0 : ℝ) * (((100 : ℕ) : ℝ) / 100) / 2))))).toNat ∧
    applyPerlinNoiseGlitch 1 1 zbuf ⟨EffectType.noise, 100, 10, 1, 0⟩
      (pixIdx 1 0 0 + 2) =
      (max 0 (min 255 (roundTiesEven (min 255
        ((zbuf (noiseSrcIdx 1 1 10 100 1 0 0 + 2) : ℝ) -
          (noiseColorShift 1 1 10 1 0 0 : ℝ) * (((100 : ℕ) : ℝ) / 100) / 2))))).toNat :=
  c4_amended 1 1 zbuf 100 10 1 0 0 0 (by constructor <;> decide)
    (by constructor <;> decide)

end Glitch
